import Mathlib

/-!
Verification of the brightness-stepping core of the `licht` utility.

Modelling conventions (shallow embedding of the Rust sources):
* `f32` values are modelled as exact rationals (`ℚ`); ordinary `f32`
  arithmetic (`+`, `-`, `*`, `/`, comparisons) is modelled exactly.
* The transcendental `f32::powf` has no exact rational counterpart, so every
  definition that uses it is parametrised by a function `pw : ℚ → ℚ → ℚ`
  standing for the machine power function (`pw x e` models `x.powf(e)`).
  Theorems either hold for every `pw`, or instantiate `pw` with a function
  that agrees with IEEE-754 `powf` on the finitely many points the run
  actually evaluates (e.g. `powf(x, 1.0) = x` exactly).
* Rust `as i32` casts of `f32` truncate toward zero (`ratTrunc`); `as usize`
  casts additionally saturate negative values to `0` (`usizeOfRat`).
  Out-of-range saturation at `i32::MAX`/`usize::MAX` is not modelled; every
  value cast in the claims fits comfortably.
* The unbounded `loop { … }` of `Blend::calculate` is modelled with an
  explicit fuel parameter: `none` means the loop has not terminated within
  `fuel` iterations (so `∀ fuel, … = none` models an infinite loop).
* Fallible operations (`FromStr`, the panicking `f32::clamp`) return
  `Option`, `none` standing for the error/panic.
-/

namespace Licht

/-- Rust `f32 as i32`: truncation toward zero. -/
def ratTrunc (q : ℚ) : ℤ :=
  if q < 0 then ⌈q⌉ else ⌊q⌋

/-- Rust `f32 as usize`: truncation toward zero, negatives saturating to 0. -/
def usizeOfRat (q : ℚ) : ℕ :=
  (ratTrunc q).toNat

theorem ratTrunc_eq_floor (q : ℚ) (h : 0 ≤ q) : ratTrunc q = ⌊q⌋ := by
  simp [ratTrunc, not_lt.mpr h]

theorem ratTrunc_eq_ceil (q : ℚ) (h : q < 0) : ratTrunc q = ⌈q⌉ := by
  simp [ratTrunc, h]

theorem usizeOfRat_eq (q : ℚ) (n : ℕ) (h1 : (n : ℚ) ≤ q) (h2 : q < (n : ℚ) + 1) :
    usizeOfRat q = n := by
  have h0 : (0 : ℚ) ≤ q := le_trans (by positivity) h1
  have hfl : ⌊q⌋ = (n : ℤ) := by
    rw [Int.floor_eq_iff]
    constructor
    · exact_mod_cast h1
    · exact_mod_cast h2
  rw [usizeOfRat, ratTrunc_eq_floor q h0, hfl]
  exact Int.toNat_natCast n

theorem usizeOfRat_of_nonpos (q : ℚ) (h : q ≤ 0) : usizeOfRat q = 0 := by
  rcases lt_or_eq_of_le h with hlt | heq
  · rw [usizeOfRat, ratTrunc_eq_ceil q hlt]
    exact Int.toNat_of_nonpos (Int.ceil_le.mpr (by exact_mod_cast h))
  · rw [usizeOfRat, heq, ratTrunc_eq_floor 0 le_rfl]
    simp

/-- `src/stepping/absolute.rs`, `Absolute::calculate`:
`cur as f32 + step as f32` (the `max` argument is ignored). -/
def Absolute.calculate (step : ℤ) (cur _mx : ℕ) : ℚ :=
  (cur : ℚ) + (step : ℚ)

/-- `src/stepping/set.rs`, `Set::calculate`: `step as f32`
(both `cur` and `max` are ignored). -/
def Set.calculate (step : ℤ) (_cur _mx : ℕ) : ℚ :=
  (step : ℚ)

/-- `src/stepping/geometric.rs`, `Geometric::calculate`:
`cur + cur * (step / 100)`. -/
def Geometric.calculate (step : ℤ) (cur _mx : ℕ) : ℚ :=
  (cur : ℚ) + (cur : ℚ) * ((step : ℚ) / 100)

/-- `src/stepping/parabolic.rs`, `Parabolic::calculate`:
`cur_x = (cur/max)^(1/exponent); new_x = cur_x + step/100;
max * new_x^exponent`, with `powf` abstracted as `pw`. -/
def Parabolic.calculate (pw : ℚ → ℚ → ℚ) (exponent : ℚ) (step : ℤ)
    (cur mx : ℕ) : ℚ :=
  let curX := pw ((cur : ℚ) / (mx : ℚ)) exponent⁻¹
  let newX := curX + (step : ℚ) / 100
  (mx : ℚ) * pw newX exponent

/-- `src/main.rs`, `Backlight::calculate_brightness` (rounding clamp):
`self.max_brightness.min((new_brightness + 0.5f32) as usize).max(min)`. -/
def Main.calculateBrightness (raw : ℚ) (minB maxB : ℕ) : ℕ :=
  Nat.max (Nat.min maxB (usizeOfRat (raw + 1/2))) minB

/-- Body of Rust `f32::clamp` once its `assert!(min <= max)` has passed:
`if self < min { min } else if self > max { max } else { self }`. -/
def rustClamp (x lo hi : ℚ) : ℚ :=
  if x < lo then lo else if x > hi then hi else x

/-- `src/light.rs`, `Light::calculate_brightness`:
`stepping.calculate(..).clamp(min as f32, max_brightness as f32) as usize`.
`f32::clamp` panics when `min > max`; the panic is modelled as `none`.
The stepping result is passed in as `raw`. -/
def Light.calculateBrightness (raw : ℚ) (minB maxB : ℕ) : Option ℕ :=
  if (minB : ℚ) ≤ (maxB : ℚ) then
    some (usizeOfRat (rustClamp raw (minB : ℚ) (maxB : ℚ)))
  else none

/-- `src/backlight.rs`, `Backlight::calculate_brightness`: textually the same
clamp-based computation as `Light::calculate_brightness`. -/
def Backlight.calculateBrightness (raw : ℚ) (minB maxB : ℕ) : Option ℕ :=
  if (minB : ℚ) ≤ (maxB : ℚ) then
    some (usizeOfRat (rustClamp raw (minB : ℚ) (maxB : ℚ)))
  else none

/-- Parameters of `src/stepping/blend.rs`, `struct Blend`. -/
structure Blend where
  ratio : ℚ
  a : ℚ
  b : ℚ
  step : ℤ

/-- The inner closure `h` of `src/stepping/blend.rs`, `Blend::calculate`:
`((max*ratio*x.powf(a) - max*(1-ratio)*(1-x).powf(b.recip())) + 0.5) as i32`. -/
def Blend.h (pw : ℚ → ℚ → ℚ) (bl : Blend) (mx : ℕ) (x : ℚ) : ℤ :=
  ratTrunc ((mx : ℚ) * bl.ratio * pw x bl.a
    - (mx : ℚ) * (1 - bl.ratio) * pw (1 - x) bl.b⁻¹ + 1/2)

/-- The unbounded `loop { … }` of `src/stepping/blend.rs`, `Blend::calculate`,
with an explicit fuel parameter; `none` means the loop has not finished
within `fuel` iterations.  One iteration reads
`diff = h(cur_x) - cur; if diff == 0 break;
if diff < 0 { l = cur_x } else { r = cur_x }; cur_x = l + (r-l)/2`. -/
def Blend.loop (h : ℚ → ℤ) (curAdj : ℤ) : ℕ → ℚ → ℚ → ℚ → Option ℚ
  | 0, _, _, _ => none
  | fuel + 1, l, r, curX =>
    let diff := h curX - curAdj
    if diff = 0 then some curX
    else
      let l2 := if diff < 0 then curX else l
      let r2 := if diff < 0 then r else curX
      Blend.loop h curAdj fuel l2 r2 (l2 + (r2 - l2) / 2)

/-- `src/stepping/blend.rs`, `Blend::calculate (cur, max)`.  Follows the
source line by line: the two edge-case short-circuits, the component
inverses `f_inverse`/`g_inverse`, the bracket `[l, r]`, the seed guess, the
integer-compared `h` with the constant term `max*(1-ratio)` moved out of it
and subtracted from `cur`, the bisection loop, the step advance with its
`[0, 1]` saturation, and the final `h(new_x) + max*(1-ratio)`. -/
def Blend.calculate (pw : ℚ → ℚ → ℚ) (bl : Blend) (cur mx : ℕ) (fuel : ℕ) :
    Option ℚ :=
  if cur = mx ∧ 0 < bl.step then some (mx : ℚ)
  else if cur = 0 ∧ bl.step < 0 then some 0
  else
    let fInverse : ℕ → ℚ := fun y => pw ((y : ℚ) / (mx : ℚ)) bl.a⁻¹
    let gInverse : ℕ → ℚ := fun y => 1 - pw (1 - (y : ℚ) / (mx : ℚ)) bl.b
    let l0 := min (fInverse cur) (gInverse cur)
    let r0 := max (fInverse cur) (gInverse cur)
    let x0 := bl.ratio * fInverse cur + (1 - bl.ratio) * gInverse cur
    let curAdj : ℤ := (cur : ℤ) - ratTrunc ((mx : ℚ) * (1 - bl.ratio))
    match Blend.loop (Blend.h pw bl mx) curAdj fuel l0 r0 x0 with
    | none => none
    | some foundX =>
      let newX := foundX + (bl.step : ℚ) / 100
      if 1 ≤ newX then some (mx : ℚ)
      else if newX ≤ 0 then some 0
      else some ((Blend.h pw bl mx newX : ℚ) + (mx : ℚ) * (1 - bl.ratio))

/-- The naive `Blend::calculate` of `src/main.rs` evaluates, at a position
`x`, the closure `h = max * (ratio * x^a + (1-ratio) * (1-(1-x)^(1/b)))`;
the final brightness it yields for that position (after `src/main.rs`
rounding `(… + 0.5) as i32`-style truncation) is this value. -/
def Blend.naiveAt (pw : ℚ → ℚ → ℚ) (ratio a b : ℚ) (mx : ℕ) (x : ℚ) : ℚ :=
  (ratTrunc ((mx : ℚ) * (ratio * pw x a + (1 - ratio) * (1 - pw (1 - x) b⁻¹))
    + 1/2) : ℚ)

/-- The optimized `src/stepping/blend.rs` evaluation at a position `x`:
the truncated-to-`i32` closure `h` (with the constant `max*(1-ratio)` moved
out) followed by `h(x) as f32 + max as f32 * (1.0 - ratio)`. -/
def Blend.optAt (pw : ℚ → ℚ → ℚ) (ratio a b : ℚ) (mx : ℕ) (x : ℚ) : ℚ :=
  (ratTrunc ((mx : ℚ) * ratio * pw x a
    - (mx : ℚ) * (1 - ratio) * pw (1 - x) b⁻¹ + 1/2) : ℚ)
    + (mx : ℚ) * (1 - ratio)

/-- The four mutually-exclusive stepping selections of `src/main.rs`
(`struct Cli`): `absolute`, `geometric`, `parabolic (exponent)`,
`blend (ratio, a, b)`. -/
inductive Strategy where
  | absolute : Strategy
  | geometric : Strategy
  | parabolic (exponent : ℚ) : Strategy
  | blend (ratio a b : ℚ) : Strategy
deriving DecidableEq

/-- The stepping-related fields of `src/main.rs`, `struct Cli`:
`absolute: Option<Absolute>`, `geometric: Option<Geometric>`,
`parabolic: Option<Parabolic>`, `blend: Option<Blend>`. -/
structure Cli where
  absolute : Option Unit
  geometric : Option Unit
  parabolic : Option ℚ
  blend : Option (ℚ × ℚ × ℚ)

/-- `src/main.rs`, `Cli::get_stepping`: the `or_else` chain
`absolute.or_else(geometric).or_else(parabolic).or_else(blend)`. -/
def Cli.getStepping (c : Cli) : Option Strategy :=
  ((c.absolute.map fun _ => Strategy.absolute).orElse fun _ =>
    ((c.geometric.map fun _ => Strategy.geometric).orElse fun _ =>
      ((c.parabolic.map fun e => Strategy.parabolic e).orElse fun _ =>
        c.blend.map fun t => Strategy.blend t.1 t.2.1 t.2.2)))

/-- `src/main.rs`, `main`:
`cli.get_stepping().unwrap_or(&Parabolic { exponent: 2.0f32 })`. -/
def Cli.strategyUsed (c : Cli) : Strategy :=
  (c.getStepping).getD (Strategy.parabolic 2)

/-- Helper for the model of the Rust regex `\(.*\)`: after an opening
parenthesis, is there a closing parenthesis before any newline?
(`.` in Rust's regex crate does not match `\n`.) -/
def closesBeforeNewline : List Char → Bool
  | [] => false
  | ')' :: _ => true
  | '\n' :: _ => false
  | _ :: rest => closesBeforeNewline rest

/-- Model of `Regex::new(r"\(.*\)").is_match(s)`: some `(` is followed,
with no intervening newline, by some `)`. -/
def hasParenMatch : List Char → Bool
  | [] => false
  | '(' :: rest => closesBeforeNewline rest || hasParenMatch rest
  | _ :: rest => hasParenMatch rest

/-- Digit run to a natural number, most significant first. -/
def natOfDigits (cs : List Char) : ℕ :=
  cs.foldl (fun acc c => 10 * acc + (c.toNat - 48)) 0

/-- Unsigned part of Rust `f32::from_str` restricted to plain decimal
notation `digits[.digits]` (no exponent, `inf` or `NaN` forms, which no
claim exercises); the value is taken exactly, ignoring `f32` rounding. -/
def parseUnsignedDec (cs : List Char) : Option ℚ :=
  let intPart := cs.takeWhile Char.isDigit
  let rest := cs.dropWhile Char.isDigit
  match rest with
  | [] => if intPart.isEmpty then none else some (natOfDigits intPart : ℚ)
  | '.' :: frac =>
    if frac.all Char.isDigit ∧ (intPart ≠ [] ∨ frac ≠ []) then
      some ((natOfDigits intPart : ℚ) + (natOfDigits frac : ℚ) / 10 ^ frac.length)
    else none
  | _ => none

/-- Model of Rust `s.parse::<f32>()` on plain decimal strings:
an optional sign followed by `parseUnsignedDec`. -/
def parseF32 (cs : List Char) : Option ℚ :=
  match cs with
  | '-' :: rest => (parseUnsignedDec rest).map fun q => -q
  | '+' :: rest => parseUnsignedDec rest
  | _ => parseUnsignedDec cs

/-- `src/stepping/parabolic.rs`, `impl FromStr for Parabolic`: require the
regex `\(.*\)` to match, strip the first and last byte, require at least
three remaining bytes, then parse the remainder as `f32`; `some e`
models `Ok(Parabolic { exponent: e })` and `none` models `Err(..)`. -/
def Parabolic.fromStr (s : String) : Option ℚ :=
  if hasParenMatch s.data = false then none
  else
    let t := (s.data.drop 1).dropLast
    if t.length < 3 then none
    else parseF32 t

theorem ceil_eq_neg_floor_neg (q : ℚ) : ⌈q⌉ = -⌊-q⌋ := by
  rw [Int.floor_neg, neg_neg]

/-- Model of `f32::powf` specialised to exponent `1.0`: IEEE-754 `powf`
returns `x` exactly when the exponent is `1.0`, so on runs that only ever
raise to the power `1` (i.e. `a = b = 1`, whose `recip()` is again exactly
`1.0`) this is the machine power function, with no rounding idealisation. -/
def pwIdent : ℚ → ℚ → ℚ := fun x _ => x

/-- Model of `f32::powf` for the Parabolic run with exponent `2.0`:
squaring is taken exactly, and the single square-root evaluation
`powf(_, 0.5)` is abstracted as the value `q` (hypotheses on `q` capture
how close the machine value is to the real `sqrt`). -/
def pwParabolic (q : ℚ) : ℚ → ℚ → ℚ := fun x e => if e = 2 then x ^ 2 else q

/-- C2 counterexample: `Absolute::calculate(3, 5, 10)` is `5 + 3 = 8`, not
the configured value `3` — the Absolute model does not return the target
verbatim. -/
theorem c2_absolute_counterexample :
    Absolute.calculate 3 5 10 = 8 ∧ (8 : ℚ) ≠ 3 := by
  constructor
  · norm_num [Absolute.calculate]
  · norm_num

/-- C2 (amended): `Absolute::calculate` adds the raw step onto the current
brightness, `calculate(x, cur, max) = cur + x` (ignoring `max`); it is the
`Set` model of `src/stepping/set.rs` that returns the configured value
verbatim, `calculate(x, cur, max) = x`. -/
theorem c2_absolute_adds_step (step : ℤ) (cur mx : ℕ) :
    Absolute.calculate step cur mx = (cur : ℚ) + (step : ℚ) ∧
    Set.calculate step cur mx = (step : ℚ) :=
  ⟨rfl, rfl⟩

/-- C3: the Blend edge-case short-circuits: for every power model, every
parameter set, every `max` and every fuel, `calculate` returns exactly
`max` when `current = max` and `step > 0`, and exactly `0` when
`current = 0` and `step < 0` — in both cases before the bisection search
(the result does not depend on the loop fuel or on `pw`). -/
theorem c3_blend_saturation (pw : ℚ → ℚ → ℚ) (bl : Blend) (mx fuel : ℕ) :
    (0 < bl.step → Blend.calculate pw bl mx mx fuel = some (mx : ℚ)) ∧
    (bl.step < 0 → Blend.calculate pw bl 0 mx fuel = some 0) := by
  constructor
  · intro h
    unfold Blend.calculate
    rw [if_pos ⟨rfl, h⟩]
  · intro h
    unfold Blend.calculate
    have hne : ¬(0 = mx ∧ 0 < bl.step) := by
      rintro ⟨-, hc⟩
      exact absurd h (not_lt.mpr (le_of_lt hc))
    rw [if_neg hne, if_pos ⟨rfl, h⟩]

/-- C3 witness: with parameters `ratio = 1/2`, `a = b = 1`, the
short-circuits fire at `current = max = 8, step = 10` and at
`current = 0, max = 8, step = -10`. -/
theorem c3_blend_saturation_witness :
    Blend.calculate pwIdent ⟨1/2, 1, 1, 10⟩ 8 8 5 = some 8 ∧
    Blend.calculate pwIdent ⟨1/2, 1, 1, -10⟩ 0 8 5 = some 0 :=
  ⟨by simpa using (c3_blend_saturation pwIdent ⟨1/2, 1, 1, 10⟩ 8 5).1 (by norm_num),
   (c3_blend_saturation pwIdent ⟨1/2, 1, 1, -10⟩ 8 5).2 (by norm_num)⟩

/-- C8: the Geometric model computes `cur + cur * (step/100)`, so step `0`
is a no-op and step `100` doubles the current brightness, for every `cur`
and `max`. -/
theorem c8_geometric_noop_and_double (cur mx : ℕ) :
    Geometric.calculate 0 cur mx = (cur : ℚ) ∧
    Geometric.calculate 100 cur mx = 2 * (cur : ℚ) := by
  constructor <;> (unfold Geometric.calculate; push_cast; ring)

/-- C10: the `f32::clamp`-based `calculate_brightness` of `src/light.rs`
and `src/backlight.rs` returns a value exactly when `min ≤ max_brightness`;
when `min > max_brightness` the `f32::clamp` precondition is violated and
the call panics (`none`) instead of producing a brightness. -/
theorem c10_clamp_total_iff (raw : ℚ) (minB maxB : ℕ) :
    ((Light.calculateBrightness raw minB maxB).isSome ↔ minB ≤ maxB) ∧
    ((Backlight.calculateBrightness raw minB maxB).isSome ↔ minB ≤ maxB) := by
  have hc : ((minB : ℚ) ≤ (maxB : ℚ)) ↔ minB ≤ maxB := Nat.cast_le
  constructor
  · unfold Light.calculateBrightness
    split_ifs with h
    · simpa using hc.mp h
    · simpa using fun hle => h (hc.mpr hle)
  · unfold Backlight.calculateBrightness
    split_ifs with h
    · simpa using hc.mp h
    · simpa using fun hle => h (hc.mpr hle)

/-- C5: `Parabolic::from_str` accepts the input `"(0.0)"` and returns the
configuration `exponent = 0` instead of a configuration error — the
out-of-domain exponent `0` is not rejected at configuration time. -/
theorem c5_fromStr_accepts_zero_exponent :
    Parabolic.fromStr (String.mk ['(', '0', '.', '0', ')']) = some 0 := by
  unfold Parabolic.fromStr
  have hmatch : hasParenMatch (String.mk ['(', '0', '.', '0', ')']).data = true := by
    decide
  rw [hmatch]
  have ht : ((String.mk ['(', '0', '.', '0', ')']).data.drop 1).dropLast
      = ['0', '.', '0'] := by decide
  simp only [ht]
  norm_num
  have hpf : parseF32 ['0', '.', '0'] = parseUnsignedDec ['0', '.', '0'] := rfl
  rw [hpf]
  unfold parseUnsignedDec
  have htw : List.takeWhile Char.isDigit ['0', '.', '0'] = ['0'] := by decide
  have hdw : List.dropWhile Char.isDigit ['0', '.', '0'] = ['.', '0'] := by decide
  simp only [htw, hdw]
  have hn : natOfDigits ['0'] = 0 := by decide
  simp only [hn]
  norm_num
  intro h
  exact absurd h (by decide)

/-- C6: when none of `absolute`, `geometric`, `parabolic`, `blend` is set on
the command line, `main` falls back to `Parabolic { exponent: 2.0 }`. -/
theorem c6_default_parabolic_two (c : Cli) (h1 : c.absolute = none)
    (h2 : c.geometric = none) (h3 : c.parabolic = none) (h4 : c.blend = none) :
    c.strategyUsed = Strategy.parabolic 2 := by
  simp [Cli.strategyUsed, Cli.getStepping, h1, h2, h3, h4, Option.orElse]

/-- C6 witness: the all-unset configuration uses Parabolic with exponent 2. -/
theorem c6_default_parabolic_two_witness :
    Cli.strategyUsed ⟨none, none, none, none⟩ = Strategy.parabolic 2 :=
  c6_default_parabolic_two ⟨none, none, none, none⟩ rfl rfl rfl rfl

/-- C9 counterexample: at `ratio = 1/4`, `a = b = 1`, `max = 10`,
`x = 1/2` (power model exact, since only exponent `1.0` is used), the
optimized evaluation yields `11/2` while the naive rounded convex
combination yields `5` — the two forms do not agree for every position. -/
theorem c9_blend_opt_counterexample :
    Blend.optAt pwIdent (1/4) 1 1 10 (1/2) = 11/2 ∧
    Blend.naiveAt pwIdent (1/4) 1 1 10 (1/2) = 5 ∧
    (11/2 : ℚ) ≠ 5 := by
  refine ⟨?_, ?_, by norm_num⟩
  · unfold Blend.optAt pwIdent
    norm_num [ratTrunc, ceil_eq_neg_floor_neg]
  · unfold Blend.naiveAt pwIdent
    norm_num [ratTrunc]

/-- C9 (amended): the optimized evaluation agrees with the naive rounded
convex combination whenever the extracted constant `max * (1 - ratio)` is a
nonnegative integer (so that re-adding it commutes with the `i32`
truncation) and the optimized argument `max*ratio*x^a -
max*(1-ratio)*(1-x)^(1/b) + 1/2` is nonnegative (so that truncation toward
zero is the floor); in general the two differ because the truncation is
applied before the constant is re-added. -/
theorem c9_blend_opt_refines_naive (pw : ℚ → ℚ → ℚ) (ratio a b : ℚ)
    (mx : ℕ) (x : ℚ) (k : ℤ) (hk : (mx : ℚ) * (1 - ratio) = (k : ℚ))
    (hk0 : 0 ≤ k)
    (hnn : 0 ≤ (mx : ℚ) * ratio * pw x a
      - (mx : ℚ) * (1 - ratio) * pw (1 - x) b⁻¹ + 1/2) :
    Blend.optAt pw ratio a b mx x = Blend.naiveAt pw ratio a b mx x := by
  unfold Blend.optAt Blend.naiveAt
  have hk0' : (0 : ℚ) ≤ (k : ℚ) := by exact_mod_cast hk0
  have harg : (mx : ℚ) * (ratio * pw x a + (1 - ratio) * (1 - pw (1 - x) b⁻¹))
      + 1/2
      = ((mx : ℚ) * ratio * pw x a
        - (mx : ℚ) * (1 - ratio) * pw (1 - x) b⁻¹ + 1/2) + (k : ℚ) := by
    rw [← hk]; ring
  rw [harg, ratTrunc_eq_floor _ hnn, ratTrunc_eq_floor _ (by linarith),
    Int.floor_add_int, hk]
  push_cast
  ring

/-- C9 witness: with `ratio = 1/2`, `a = b = 1`, `max = 10`, `x = 1/2`, the
constant `max*(1-ratio) = 5` is a nonnegative integer and the optimized
argument is `1/2 ≥ 0`, so the two evaluations agree. -/
theorem c9_blend_opt_refines_naive_witness :
    Blend.optAt pwIdent (1/2) 1 1 10 (1/2)
      = Blend.naiveAt pwIdent (1/2) 1 1 10 (1/2) :=
  c9_blend_opt_refines_naive pwIdent (1/2) 1 1 10 (1/2) 5
    (by norm_num) (by norm_num) (by norm_num [pwIdent])

theorem le_usizeOfRat (n : ℕ) (q : ℚ) (h : (n : ℚ) ≤ q) : n ≤ usizeOfRat q := by
  have h0 : (0 : ℚ) ≤ q := le_trans (by positivity) h
  rw [usizeOfRat, ratTrunc_eq_floor q h0]
  have h2 : (n : ℤ) ≤ ⌊q⌋ := Int.le_floor.mpr (by exact_mod_cast h)
  omega

theorem usizeOfRat_le (q : ℚ) (n : ℕ) (h : q ≤ (n : ℚ)) : usizeOfRat q ≤ n := by
  rcases lt_or_le q 0 with hneg | hpos
  · rw [usizeOfRat, ratTrunc_eq_ceil q hneg]
    have h2 : ⌈q⌉ ≤ (0 : ℤ) := Int.ceil_le.mpr (by exact_mod_cast le_of_lt hneg)
    omega
  · rw [usizeOfRat, ratTrunc_eq_floor q hpos]
    have h2 : ⌊q⌋ ≤ (n : ℤ) := by
      have := Int.floor_le_floor h
      simpa using this
    omega

/-- C4 counterexample: the `light.rs` clamp at raw value `64.5` with
bounds `[0, 100]` stores `64` (it bounds first, then truncates toward
zero), not the round-half-up value `65`; and the `main.rs` clamp with
`min = 10 > max = 5` stores `10`, outside `[min, max]` — so the claim's
round-half-up contract and its unconditional bound both fail as stated. -/
theorem c4_clamp_counterexample :
    Light.calculateBrightness (129/2) 0 100 = some 64 ∧ (64 : ℕ) ≠ 65 ∧
    Main.calculateBrightness 3 10 5 = 10 ∧ ¬(Main.calculateBrightness 3 10 5 ≤ 5) := by
  have hl : Light.calculateBrightness (129/2) 0 100 = some 64 := by
    unfold Light.calculateBrightness rustClamp
    norm_num
    exact usizeOfRat_eq _ 64 (by norm_num) (by norm_num)
  have hm : Main.calculateBrightness 3 10 5 = 10 := by
    unfold Main.calculateBrightness
    rw [usizeOfRat_eq (3 + 1/2 : ℚ) 3 (by norm_num) (by norm_num)]
    decide
  refine ⟨hl, by norm_num, hm, ?_⟩
  rw [hm]
  norm_num

/-- C4 (amended): under the precondition `min ≤ max` both clamp variants
store a brightness in `[min, max]`, and `clamp(max + 1000, 0, max) = max`
and `clamp(-50, 5, max) = 5` hold in both; however only the `main.rs`
variant rounds half-up before bounding — the `light.rs` variant bounds
first and then truncates toward zero — and for `min > max` the bound fails
(`main.rs` returns `min`, `light.rs` panics). -/
theorem c4_clamp_bounds (raw : ℚ) (minB maxB : ℕ) (h : minB ≤ maxB) :
    (minB ≤ Main.calculateBrightness raw minB maxB
      ∧ Main.calculateBrightness raw minB maxB ≤ maxB)
    ∧ (∀ y, Light.calculateBrightness raw minB maxB = some y
        → minB ≤ y ∧ y ≤ maxB)
    ∧ Main.calculateBrightness ((maxB : ℚ) + 1000) 0 maxB = maxB
    ∧ Main.calculateBrightness (-50) 5 maxB = 5
    ∧ Light.calculateBrightness ((maxB : ℚ) + 1000) 0 maxB = some maxB
    ∧ (5 ≤ maxB → Light.calculateBrightness (-50) 5 maxB = some 5) := by
  refine ⟨⟨Nat.le_max_right _ _, Nat.max_le.mpr ⟨Nat.min_le_left _ _, h⟩⟩,
    ?_, ?_, ?_, ?_, ?_⟩
  · intro y hy
    unfold Light.calculateBrightness at hy
    rw [if_pos (by exact_mod_cast h)] at hy
    have hy2 : y = usizeOfRat (rustClamp raw (minB : ℚ) (maxB : ℚ)) :=
      (Option.some_injective _ hy).symm
    have hlo : (minB : ℚ) ≤ rustClamp raw (minB : ℚ) (maxB : ℚ) := by
      unfold rustClamp
      split_ifs with h1 h2
      · exact le_rfl
      · exact_mod_cast h
      · exact le_of_not_lt h1
    have hhi : rustClamp raw (minB : ℚ) (maxB : ℚ) ≤ (maxB : ℚ) := by
      unfold rustClamp
      split_ifs with h1 h2
      · exact_mod_cast h
      · exact le_rfl
      · exact le_of_not_lt h2
    exact hy2 ▸ ⟨le_usizeOfRat _ _ hlo, usizeOfRat_le _ _ hhi⟩
  · unfold Main.calculateBrightness
    rw [usizeOfRat_eq ((maxB : ℚ) + 1000 + 1/2) (maxB + 1000)
      (by push_cast; norm_num) (by push_cast; norm_num)]
    simp only [Nat.min_def, Nat.max_def]
    split_ifs <;> omega
  · unfold Main.calculateBrightness
    rw [usizeOfRat_of_nonpos (-50 + 1/2 : ℚ) (by norm_num)]
    simp only [Nat.min_def, Nat.max_def]
    split_ifs <;> omega
  · unfold Light.calculateBrightness rustClamp
    have hmb : (0 : ℚ) ≤ (maxB : ℚ) := Nat.cast_nonneg maxB
    rw [if_pos (by exact_mod_cast Nat.zero_le maxB)]
    rw [if_neg (by push_cast; linarith), if_pos (by linarith)]
    rw [usizeOfRat_eq _ maxB le_rfl (by norm_num)]
  · intro h5
    unfold Light.calculateBrightness rustClamp
    rw [if_pos (by exact_mod_cast h5)]
    rw [if_pos (by norm_num)]
    rw [usizeOfRat_eq _ 5 (by norm_num) (by norm_num)]

/-- C4 witness: at raw `13/2`, bounds `[0, 100]`, the rounding clamp stays
in bounds, the overflow example stores `max = 100`, and the underflow
example stores the floor `5`. -/
theorem c4_clamp_bounds_witness :
    (0 ≤ Main.calculateBrightness (13/2) 0 100
      ∧ Main.calculateBrightness (13/2) 0 100 ≤ 100)
    ∧ Main.calculateBrightness ((100 : ℚ) + 1000) 0 100 = 100
    ∧ Light.calculateBrightness (-50) 5 100 = some 5 := by
  obtain ⟨hb, -, hov, -, -, hun⟩ := c4_clamp_bounds (13/2) 0 100 (by norm_num)
  exact ⟨hb, hov, hun (by norm_num)⟩

/-- Bisection-loop states with `l = r = cur_x` and a nonzero integer
difference are fixed points: the midpoint update returns the same point, so
the loop never exits, whatever the fuel. -/
theorem blendLoop_fixed (h : ℚ → ℤ) (c : ℤ) (x : ℚ) (hd : h x - c ≠ 0) :
    ∀ n, Blend.loop h c n x x x = none := by
  intro n
  induction n with
  | zero => rfl
  | succ n ih =>
    simp only [Blend.loop]
    rw [if_neg hd]
    simp only [ite_self, sub_self, zero_div, add_zero]
    exact ih

/-- C1: the bisection loop of `Blend::calculate` carries no iteration cap
at all: with `ratio = 1/4`, `a = b = 1` (both inside `(0.1, 10)`),
`step = -1`, `current = 2 ∈ [0, max]`, `max = 8 > 0` — an input on which
every `f32` operation of the source is exact (all values are small dyadic
rationals and `powf` is only applied with exponent `1.0`) — the loop state
stays at `l = r = cur_x = 1/4` with `diff = 1` forever, so `calculate`
terminates within no bound of iterations whatsoever. -/
theorem c1_blend_bisection_never_terminates (fuel : ℕ) :
    Blend.calculate pwIdent ⟨1/4, 1, 1, -1⟩ 2 8 fuel = none := by
  unfold Blend.calculate
  norm_num [pwIdent]
  have hfix : Blend.loop (Blend.h pwIdent ⟨1/4, 1, 1, -1⟩ 8) (2 - ratTrunc 6) fuel
      (1/4) (1/4) (1/4) = none := by
    apply blendLoop_fixed
    norm_num [Blend.h, pwIdent, ratTrunc, ceil_eq_neg_floor_neg]
  rw [hfix]

/-- C7: end-to-end Parabolic step: `current = 50`, `max = 100`,
exponent `2`, `step = +10`, `min = 0`.  For any machine value `q` of
`powf(0.5, 0.5)` with `q ≥ 0` and `q² within 1/1000 of 1/2` (amply
satisfied by the correctly-rounded `f32` square root `≈ 0.70710678`), the
curve position `q ≈ 0.7071` advances to `q + 0.1 ≈ 0.8071`, is squared and
scaled to `≈ 65.14`, and the stored brightness after rounding is `65`. -/
theorem c7_end_to_end_parabolic (q : ℚ) (h0 : 0 ≤ q)
    (h1 : |q ^ 2 - 1/2| ≤ 1/1000) :
    Main.calculateBrightness
      (Parabolic.calculate (pwParabolic q) 2 10 50 100) 0 100 = 65 := by
  rw [abs_le] at h1
  have hup : q ≤ 70783/100000 := by
    nlinarith [sq_nonneg (q - 707/1000)]
  have hlo : 7049/10000 ≤ q := by
    nlinarith [mul_le_mul_of_nonneg_left hup h0]
  have hcalc : Parabolic.calculate (pwParabolic q) 2 10 50 100
      = 100 * (q + 1/10) ^ 2 := by
    unfold Parabolic.calculate pwParabolic
    norm_num
  rw [hcalc]
  unfold Main.calculateBrightness
  rw [usizeOfRat_eq (100 * (q + 1/10) ^ 2 + 1/2) 65 (by nlinarith) (by nlinarith)]
  decide

/-- C7 witness: at the machine square root `q = 0.7071` the pipeline stores
brightness `65`. -/
theorem c7_end_to_end_parabolic_witness :
    Main.calculateBrightness
      (Parabolic.calculate (pwParabolic (7071/10000)) 2 10 50 100) 0 100 = 65 :=
  c7_end_to_end_parabolic (7071/10000) (by norm_num) (by rw [abs_le]; norm_num)

end Licht
